import Mathlib

/-!
Verification development for the OpenFreeMap provisioning scripts
(`init-download.py`, `download-assets.py`, `extract-btrfs.py`,
`generate-nginx-config.py`).

Filesystem paths are modelled as lists of path components; a filesystem
is the list of paths that currently exist.  External tools (aria2c,
unpigz, losetup, mount, rsync, tar) are modelled by boolean success
flags in an environment record, and the scripts are embedded either as
plain functions or as small-step machines (a program counter plus the
filesystem and an event trace), so that interrupting a run after `n`
steps is expressible as running only the first `n` steps.
-/

namespace OfmSpec

/-- A filesystem path, as its list of components. -/
abbrev Path := List String

/-- The set of currently existing paths. -/
abbrev FS := List Path

/-- Creation of a path with `exist_ok=True` semantics (`mkdir` /
file creation): add the path unless it is already present. -/
def insertPath (fs : FS) (p : Path) : FS :=
  if p ∈ fs then fs else p :: fs

/-- Deletion of a single path. -/
def removePath (fs : FS) (p : Path) : FS :=
  fs.filter (fun q => q ≠ p)

/-- Python's `any(d.iterdir())`: some immediate child of `d` exists. -/
def hasChild (fs : FS) (d : Path) : Bool :=
  fs.any (fun p => p.length == d.length + 1 && p.take d.length == d)

theorem mem_insertPath {fs : FS} {p q : Path} :
    q ∈ insertPath fs p ↔ q = p ∨ q ∈ fs := by
  unfold insertPath
  by_cases h : p ∈ fs
  · rw [if_pos h]
    constructor
    · intro hq; exact Or.inr hq
    · rintro (rfl | hq) <;> [exact h; exact hq]
  · rw [if_neg h]
    simp [List.mem_cons]

theorem not_mem_insertPath {fs : FS} {p q : Path} (h1 : q ≠ p) (h2 : q ∉ fs) :
    q ∉ insertPath fs p := by
  rw [mem_insertPath]
  rintro (rfl | hq) <;> [exact h1 rfl; exact h2 hq]

theorem insertPath_of_mem {fs : FS} {p : Path} (h : p ∈ fs) :
    insertPath fs p = fs := by
  unfold insertPath; rw [if_pos h]

/-- Appending distinct tails to a common root yields distinct paths. -/
theorem append_ne_of_length_ne {r : Path} {l1 l2 : List String}
    (h : l1.length ≠ l2.length) : r ++ l1 ≠ r ++ l2 := by
  intro heq
  have := congrArg List.length heq
  simp only [List.length_append] at this
  omega

/-- Python's substring test: does `needle` occur at the start of `hay`? -/
def seqStarts (needle hay : List Char) : Bool :=
  hay.take needle.length == needle

/-- Python's `needle in hay` over character lists. -/
def seqContains (needle : List Char) : List Char → Bool
  | [] => seqStarts needle []
  | c :: t => seqStarts needle (c :: t) || seqContains needle t

/-- Python's `needle in hay` on strings. -/
def strContains (hay needle : String) : Bool :=
  seqContains needle.data hay.data

/-- Python's `line.split('/')` over a character list: split on the
separator, keeping empty pieces. -/
def splitSlashChars : List Char → List (List Char)
  | [] => [[]]
  | c :: t =>
    let r := splitSlashChars t
    if c = '/' then [] :: r
    else
      match r with
      | [] => [[c]]
      | h :: rt => (c :: h) :: rt

/-- Python's `line.split('/')` on strings. -/
def splitSlash (s : String) : List String :=
  (splitSlashChars s.data).map (fun l => String.mk l)

/-- Lexicographic comparison of character lists by code point: the
order Python uses to compare strings. -/
def charListLe : List Char → List Char → Bool
  | [], _ => true
  | _ :: _, [] => false
  | a :: as, b :: bs =>
    if a.toNat < b.toNat then true
    else if b.toNat < a.toNat then false
    else charListLe as bs

/-- Python's `a <= b` on strings (lexicographic by code point). -/
def strLe (a b : String) : Bool := charListLe a.data b.data

/-- Python's string order as a relation. -/
def strLeR (a b : String) : Prop := strLe a b = true

instance : DecidableRel strLeR :=
  fun a b => inferInstanceAs (Decidable (strLe a b = true))

theorem charListLe_refl : ∀ a : List Char, charListLe a a = true
  | [] => rfl
  | a :: as => by
    unfold charListLe
    rw [if_neg (Nat.lt_irrefl _), if_neg (Nat.lt_irrefl _)]
    exact charListLe_refl as

theorem charListLe_total : ∀ a b : List Char,
    charListLe a b = true ∨ charListLe b a = true
  | [], _ => Or.inl rfl
  | _ :: _, [] => Or.inr rfl
  | a :: as, b :: bs => by
    unfold charListLe
    rcases Nat.lt_trichotomy a.toNat b.toNat with h | h | h
    · left; rw [if_pos h]
    · rw [if_neg (by omega), if_neg (by omega), if_neg (by omega), if_neg (by omega)]
      exact charListLe_total as bs
    · right; rw [if_pos h]

theorem charListLe_trans : ∀ a b c : List Char,
    charListLe a b = true → charListLe b c = true → charListLe a c = true
  | [], _, _, _, _ => rfl
  | a :: as, [], c, h1, _ => by simp [charListLe] at h1
  | a :: as, b :: bs, [], _, h2 => by simp [charListLe] at h2
  | a :: as, b :: bs, c :: cs, h1, h2 => by
    unfold charListLe at h1 h2 ⊢
    rcases Nat.lt_trichotomy a.toNat b.toNat with hab | hab | hab
    · rw [if_pos hab] at h1
      rcases Nat.lt_trichotomy b.toNat c.toNat with hbc | hbc | hbc
      · rw [if_pos (by omega)]
      · rw [if_pos (by omega)]
      · rw [if_neg (by omega), if_pos hbc] at h2; cases h2
    · rw [if_neg (by omega), if_neg (by omega)] at h1
      rcases Nat.lt_trichotomy b.toNat c.toNat with hbc | hbc | hbc
      · rw [if_pos (by omega)]
      · rw [if_neg (by omega), if_neg (by omega)] at h2
        rw [if_neg (by omega), if_neg (by omega)]
        exact charListLe_trans as bs cs h1 h2
      · rw [if_neg (by omega), if_pos hbc] at h2; cases h2
    · rw [if_neg (by omega), if_pos hab] at h1; cases h1

instance : IsTotal String strLeR :=
  ⟨fun a b => charListLe_total a.data b.data⟩

instance : IsTrans String strLeR :=
  ⟨fun a b c => charListLe_trans a.data b.data c.data⟩

/-- Python's `sorted` on strings: a stable ascending sort under the
lexicographic order, modelled with insertion sort. -/
def sortStrings (l : List String) : List String :=
  l.insertionSort strLeR

theorem last_upper {l : List String}
    (hp : List.Pairwise strLeR l)
    {m : String} (hm : l.getLast? = some m) {x : String} (hx : x ∈ l) :
    strLe x m = true := by
  induction l with
  | nil => cases hx
  | cons a t ih =>
    cases t with
    | nil =>
      simp only [List.getLast?_singleton, Option.some.injEq] at hm
      simp only [List.mem_singleton] at hx
      subst hm; subst hx
      exact charListLe_refl _
    | cons b t2 =>
      have hm2 : (b :: t2).getLast? = some m := by
        rw [List.getLast?_cons_cons] at hm; exact hm
      rcases List.mem_cons.mp hx with rfl | hx2
      · have hmm : m ∈ b :: t2 := List.mem_of_mem_getLast? hm2
        exact (List.pairwise_cons.mp hp).1 m hmm
      · exact ih (List.pairwise_cons.mp hp).2 hm2 hx2

/-- The last element of a Python-`sorted` string list is its
lexicographic maximum. -/
theorem sortStrings_max (l : List String) (h : l ≠ []) :
    ∃ m, (sortStrings l).getLast? = some m ∧ m ∈ l ∧ ∀ x ∈ l, strLe x m = true := by
  have hperm : (sortStrings l).Perm l := List.perm_insertionSort strLeR l
  have hsorted : List.Pairwise strLeR (sortStrings l) :=
    List.sorted_insertionSort strLeR l
  have hne : sortStrings l ≠ [] := by
    intro hnil
    have := hperm.length_eq
    rw [hnil] at this
    simp at this
    exact h (List.eq_nil_of_length_eq_zero this.symm)
  obtain ⟨m, hm⟩ := List.getLast?_isSome.mpr hne |> Option.isSome_iff_exists.mp
  refine ⟨m, hm, ?_, ?_⟩
  · exact hperm.mem_iff.mp (List.mem_of_mem_getLast? hm)
  · intro x hx
    have hx2 : x ∈ sortStrings l := hperm.mem_iff.mpr hx
    exact last_upper hsorted hm hx2

/-! ## Version Resolver (`init-download.py`, `get_latest_version`, lines 43-77)

The network fetch is abstracted: the function receives the parsed lines
of `files.txt` (`response.text.strip().split('\n')`).  The exception
path (network failure, line 75-77) returns `none` before the loop runs
and is not modelled further. -/

/-- The filter at line 59 of `init-download.py`:
`f'areas/{area}/' in line and 'tiles.btrfs.gz' in line`. -/
def lineFilter (area line : String) : Bool :=
  strContains line ("areas/" ++ area ++ "/") && strContains line "tiles.btrfs.gz"

/-- The loop at lines 58-64 of `init-download.py`: for each line passing
`lineFilter`, split on `/` and, if there are at least 4 components,
collect component index 2. -/
def extractVersions (area : String) (lines : List String) : List String :=
  lines.filterMap (fun line =>
    if lineFilter area line then
      let parts := splitSlash line
      if parts.length ≥ 4 then parts[2]? else none
    else none)

/-- Lines 66-73 of `init-download.py`: `None` when no versions were
collected, otherwise `sorted(versions)[-1]`. -/
def get_latest_version (area : String) (lines : List String) : Option String :=
  let versions := extractVersions area lines
  if versions.isEmpty then none else (sortStrings versions).getLast?

/-- Modelled from the spec's words (claim C3), for refinement comparison
only: a line matches when it is exactly `areas/<area>/<version>/<suffix>`
with the archive suffix `tiles.btrfs.gz`, and `<version>` is extracted
from each match; the result is the lexicographic maximum, `none` when
no line matches. -/
def specLineVersion (area line : String) : Option String :=
  match splitSlash line with
  | [p0, p1, p2, p3] =>
      if p0 = "areas" ∧ p1 = area ∧ p3 = "tiles.btrfs.gz" then some p2 else none
  | _ => none

/-- Modelled from the spec's words (claim C3), for refinement comparison
only: see `specLineVersion`. -/
def resolve_latest_spec (area : String) (lines : List String) : Option String :=
  let vs := lines.filterMap (specLineVersion area)
  if vs.isEmpty then none else (sortStrings vs).getLast?

/-! ## Disk-Space Preflight (`init-download.py`, lines 112-131)

`get_remote_file_size` (lines 13-21) returns `0` when the remote size
cannot be determined; `download_area` treats `file_size == 0` as the
unknown case (line 117). -/

inductive SpaceCheck where
  /-- Line 118: `Warning: Could not determine remote file size`; the
  gate is skipped and the download proceeds. -/
  | unknownWarn : SpaceCheck
  /-- Lines 127-131: not enough disk space; both the free and the
  needed byte counts are reported and `download_area` returns `False`. -/
  | insufficient (free needed : Nat) : SpaceCheck
  /-- The space check passed. -/
  | ok : SpaceCheck
deriving DecidableEq

/-- The inline preflight of `download_area` (lines 116-131): unknown
size (0) is a soft warning; otherwise the needed headroom is
`file_size * 3` and the check fails exactly when `free < needed`. -/
def spaceCheck (free fileSize : Nat) : SpaceCheck :=
  if fileSize = 0 then .unknownWarn
  else if free < fileSize * 3 then .insufficient free (fileSize * 3)
  else .ok

/-! ## Fetch-and-Place for Btrfs images
(`init-download.py`, `download_area`, lines 80-149)

The function is embedded as a small-step machine over the filesystem,
so that a run interrupted after `n` steps is `dmRun n`.  The version
argument is a concrete version identifier (when the caller passes
`'latest'`, `get_latest_version` resolves it first; the machine models
the acquisition of one concrete `(area, version)` pair). -/

/-- External-world parameters of one `download_area` run. -/
structure DEnv where
  /-- `os.statvfs(temp_dir)`: free bytes on the staging filesystem
  (lines 113-114). -/
  free : Nat
  /-- `get_remote_file_size(url)` (line 116); `0` means unknown. -/
  remoteSize : Nat
  /-- Exit status of `aria2c` (line 134, `check=True`). -/
  downloadOk : Bool
  /-- Exit status of `unpigz` (line 138, `check=True`). -/
  unpigzOk : Bool
deriving DecidableEq

/-- Arguments of one `download_area` run. -/
structure DCtx where
  area : String
  version : String
  /-- `output_dir` (default `/data/btrfs`). -/
  root : Path
  env : DEnv
deriving DecidableEq

/-- `output_dir / area / version` (line 92). -/
def DCtx.finalDir (C : DCtx) : Path := C.root ++ [C.area, C.version]

/-- `area_version_dir / 'tiles.btrfs'` (line 93): the completeness
marker checked at line 96. -/
def DCtx.btrfsFile (C : DCtx) : Path := C.root ++ [C.area, C.version, "tiles.btrfs"]

/-- `output_dir / '_tmp'` (line 101): the staging directory.  Note it
depends only on `output_dir`, not on the `(area, version)` pair. -/
def DCtx.tmpDir (C : DCtx) : Path := C.root ++ ["_tmp"]

/-- `temp_dir / 'tiles.btrfs.gz'` (line 107). -/
def DCtx.gzFile (C : DCtx) : Path := C.root ++ ["_tmp", "tiles.btrfs.gz"]

/-- `temp_dir / 'tiles.btrfs'` (line 142). -/
def DCtx.tmpBtrfs (C : DCtx) : Path := C.root ++ ["_tmp", "tiles.btrfs"]

/-- Observable events of a `download_area` run.  `headRequest` and
`aria2Download` are the only remote (network) accesses. -/
inductive DEvent where
  | headRequest : DEvent
  | warnUnknownSize : DEvent
  | aria2Download : DEvent
  | unpigzRun : DEvent
deriving DecidableEq

/-- Outcome of a `download_area` run.  The Python function returns a
bare `True`/`False`; the constructor records which return site was
taken and the `final_path` it concerns. -/
inductive DResult where
  /-- Early return `True` at lines 96-98 (marker already present). -/
  | skipped (p : Path) : DResult
  /-- Final return `True` at line 149. -/
  | ok (p : Path) : DResult
  /-- Return `False` at lines 127-131. -/
  | insufficientSpace (free needed : Nat) : DResult
  /-- A `check=True` subprocess raised (aria2c or unpigz). -/
  | toolFailed : DResult
deriving DecidableEq

/-- Program counters of the `download_area` machine, in source order:
`mkRoot` = `output_dir.mkdir` (line 83); `checkMarker` = the skip check
(line 96); `mkTmp` = `temp_dir.mkdir` (line 102); `spacePc` = the size
probe and space check (lines 113-131); `downloadPc` =
`download_file_aria2` (line 134); `decompressPc` = `unpigz`
(line 138); `mkFinal` = `area_version_dir.mkdir` (line 141);
`renamePc` = the rename of the decompressed file to the marker path
(lines 142-143); `cleanupPc` = `rm -rf` of the staging directory and
the final return `True` (lines 146-149). -/
inductive DPc where
  | mkRoot : DPc
  | checkMarker : DPc
  | mkTmp : DPc
  | spacePc : DPc
  | downloadPc : DPc
  | decompressPc : DPc
  | mkFinal : DPc
  | renamePc : DPc
  | cleanupPc : DPc
deriving DecidableEq

/-- Machine state for `download_area`.  `renameRan` is a ghost flag
recording whether the final relocation (line 143) has executed. -/
structure DState where
  pc : DPc
  fs : FS
  events : List DEvent
  result : Option DResult
  renameRan : Bool
deriving DecidableEq

/-- Initial state of a `download_area` run on filesystem `fs`. -/
def dInit (fs : FS) : DState :=
  { pc := .mkRoot, fs := fs, events := [], result := none, renameRan := false }

/-- One step of `download_area` (see `DPc` for the source lines each
counter stands for). -/
def dmStep (C : DCtx) (s : DState) : DState :=
  match s.result with
  | some _ => s
  | none =>
    match s.pc with
    | .mkRoot => { s with fs := insertPath s.fs C.root, pc := .checkMarker }
    | .checkMarker =>
      if C.btrfsFile ∈ s.fs then { s with result := some (.skipped C.btrfsFile) }
      else { s with pc := .mkTmp }
    | .mkTmp => { s with fs := insertPath s.fs C.tmpDir, pc := .spacePc }
    | .spacePc =>
      match spaceCheck C.env.free C.env.remoteSize with
      | .unknownWarn =>
          { s with events := s.events ++ [.headRequest, .warnUnknownSize],
                   pc := .downloadPc }
      | .insufficient f n =>
          { s with events := s.events ++ [.headRequest],
                   result := some (.insufficientSpace f n) }
      | .ok => { s with events := s.events ++ [.headRequest], pc := .downloadPc }
    | .downloadPc =>
      if C.env.downloadOk then
        { s with events := s.events ++ [.aria2Download],
                 fs := insertPath s.fs C.gzFile, pc := .decompressPc }
      else { s with events := s.events ++ [.aria2Download], result := some .toolFailed }
    | .decompressPc =>
      if C.env.unpigzOk then
        { s with events := s.events ++ [.unpigzRun],
                 fs := insertPath (removePath s.fs C.gzFile) C.tmpBtrfs, pc := .mkFinal }
      else { s with events := s.events ++ [.unpigzRun], result := some .toolFailed }
    | .mkFinal => { s with fs := insertPath s.fs C.finalDir, pc := .renamePc }
    | .renamePc =>
      { s with fs := insertPath (removePath s.fs C.tmpBtrfs) C.btrfsFile,
               renameRan := true, pc := .cleanupPc }
    | .cleanupPc =>
      { s with fs := s.fs.filter (fun q => !(C.tmpDir.isPrefixOf q)),
               result := some (.ok C.btrfsFile) }

/-- The first `n` steps of a `download_area` run. -/
def dmRun (C : DCtx) (n : Nat) (s : DState) : DState :=
  (dmStep C)^[n] s

/-- Enough fuel for `download_area` to run to completion. -/
def DFUEL : Nat := 12

theorem dmStep_halted {C : DCtx} {s : DState} (h : s.result.isSome) :
    dmStep C s = s := by
  unfold dmStep
  cases hr : s.result with
  | some r => rfl
  | none => rw [hr] at h; cases h

theorem dmRun_halted {C : DCtx} {s : DState} (h : s.result.isSome) (n : Nat) :
    dmRun C n s = s := by
  induction n with
  | zero => rfl
  | succ k ih =>
    unfold dmRun at *
    rw [Function.iterate_succ_apply, dmStep_halted h, ih]

theorem dmRun_succ (C : DCtx) (n : Nat) (s : DState) :
    dmRun C (n + 1) s = dmRun C n (dmStep C s) :=
  Function.iterate_succ_apply (dmStep C) n s

theorem btrfsFile_ne_root (C : DCtx) : C.btrfsFile ≠ C.root := by
  intro h
  have := congrArg List.length h
  simp only [DCtx.btrfsFile, List.length_append, List.length_cons,
    List.length_nil] at this
  omega

theorem btrfsFile_ne_tmpDir (C : DCtx) : C.btrfsFile ≠ C.tmpDir :=
  append_ne_of_length_ne (by simp)

theorem btrfsFile_ne_gzFile (C : DCtx) : C.btrfsFile ≠ C.gzFile :=
  append_ne_of_length_ne (by simp)

theorem btrfsFile_ne_tmpBtrfs (C : DCtx) : C.btrfsFile ≠ C.tmpBtrfs := by
  intro h
  have : ([C.area, C.version, "tiles.btrfs"] : List String)
      = ["_tmp", "tiles.btrfs"] :=
    ((List.append_inj h rfl).2 : _)
  exact absurd (congrArg List.length this) (by simp)

theorem btrfsFile_ne_finalDir (C : DCtx) : C.btrfsFile ≠ C.finalDir :=
  append_ne_of_length_ne (by simp)

/-- The marker file `tiles.btrfs` under `final_path` is absent until
the rename step has run: preserved by every machine step. -/
theorem dmStep_marker (C : DCtx) (s : DState)
    (h : s.renameRan = false → C.btrfsFile ∉ s.fs) :
    (dmStep C s).renameRan = false → C.btrfsFile ∉ (dmStep C s).fs := by
  obtain ⟨pc, fs, ev, res, rr⟩ := s
  cases res with
  | some r => exact h
  | none =>
    cases pc
    case mkRoot =>
      intro hr
      exact not_mem_insertPath (btrfsFile_ne_root C) (h hr)
    case checkMarker =>
      by_cases hmem : C.btrfsFile ∈ fs
      · simp only [dmStep, if_pos hmem]
        exact h
      · simp only [dmStep, if_neg hmem]
        exact h
    case mkTmp =>
      intro hr
      exact not_mem_insertPath (btrfsFile_ne_tmpDir C) (h hr)
    case spacePc =>
      cases hsc : spaceCheck C.env.free C.env.remoteSize <;>
        simp only [dmStep, hsc] <;> exact h
    case downloadPc =>
      by_cases hdl : C.env.downloadOk = true
      · simp only [dmStep, if_pos hdl]
        intro hr
        exact not_mem_insertPath (btrfsFile_ne_gzFile C) (h hr)
      · simp only [dmStep, if_neg hdl]
        exact h
    case decompressPc =>
      by_cases hdz : C.env.unpigzOk = true
      · simp only [dmStep, if_pos hdz]
        intro hr
        refine not_mem_insertPath (btrfsFile_ne_tmpBtrfs C) ?_
        intro hmem
        exact h hr (List.mem_of_mem_filter hmem)
      · simp only [dmStep, if_neg hdz]
        exact h
    case mkFinal =>
      intro hr
      exact not_mem_insertPath (btrfsFile_ne_finalDir C) (h hr)
    case renamePc =>
      intro hr
      simp [dmStep] at hr
    case cleanupPc =>
      intro hr hmem
      simp only [dmStep] at hmem
      exact h hr (List.mem_of_mem_filter hmem)

theorem dmRun_marker (C : DCtx) (fs : FS) (h : C.btrfsFile ∉ fs) (n : Nat) :
    (dmRun C n (dInit fs)).renameRan = false →
      C.btrfsFile ∉ (dmRun C n (dInit fs)).fs := by
  induction n with
  | zero => exact fun _ => h
  | succ k ih =>
    unfold dmRun at *
    rw [Function.iterate_succ_apply']
    exact dmStep_marker C _ ih

/-- Recognizer for the skip (idempotence-gate) result. -/
def isSkipRes : Option DResult → Bool
  | some (.skipped _) => true
  | _ => false

/-- A run started without the marker never reports the skip result:
preserved by every machine step. -/
theorem dmStep_noskip (C : DCtx) (s : DState)
    (h1 : isSkipRes s.result = false)
    (h2 : s.pc = .mkRoot ∨ s.pc = .checkMarker → s.result = none → C.btrfsFile ∉ s.fs) :
    isSkipRes (dmStep C s).result = false ∧
      ((dmStep C s).pc = .mkRoot ∨ (dmStep C s).pc = .checkMarker →
        (dmStep C s).result = none → C.btrfsFile ∉ (dmStep C s).fs) := by
  obtain ⟨pc, fs, ev, res, rr⟩ := s
  cases res with
  | some r => exact ⟨h1, h2⟩
  | none =>
    cases pc
    case mkRoot =>
      refine ⟨h1, ?_⟩
      intro _ _
      exact not_mem_insertPath (btrfsFile_ne_root C) (h2 (Or.inl rfl) rfl)
    case checkMarker =>
      have hnm : C.btrfsFile ∉ fs := h2 (Or.inr rfl) rfl
      simp only [dmStep, if_neg hnm]
      exact ⟨h1, by intro hc; rcases hc with hc | hc <;> cases hc⟩
    case mkTmp =>
      exact ⟨h1, by intro hc; rcases hc with hc | hc <;> cases hc⟩
    case spacePc =>
      cases hsc : spaceCheck C.env.free C.env.remoteSize <;>
        simp only [dmStep, hsc] <;>
        exact ⟨by simp [isSkipRes, h1], by intro hc; rcases hc with hc | hc <;> cases hc⟩
    case downloadPc =>
      by_cases hdl : C.env.downloadOk = true
      · simp only [dmStep, if_pos hdl]
        exact ⟨h1, by intro hc; rcases hc with hc | hc <;> cases hc⟩
      · simp only [dmStep, if_neg hdl]
        exact ⟨by simp [isSkipRes], by intro hc; rcases hc with hc | hc <;> cases hc⟩
    case decompressPc =>
      by_cases hdz : C.env.unpigzOk = true
      · simp only [dmStep, if_pos hdz]
        exact ⟨h1, by intro hc; rcases hc with hc | hc <;> cases hc⟩
      · simp only [dmStep, if_neg hdz]
        exact ⟨by simp [isSkipRes], by intro hc; rcases hc with hc | hc <;> cases hc⟩
    case mkFinal =>
      exact ⟨h1, by intro hc; rcases hc with hc | hc <;> cases hc⟩
    case renamePc =>
      exact ⟨h1, by intro hc; rcases hc with hc | hc <;> cases hc⟩
    case cleanupPc =>
      exact ⟨by simp [dmStep, isSkipRes], by intro hc; rcases hc with hc | hc <;> cases hc⟩

theorem dmRun_noskip (C : DCtx) (fs : FS) (h : C.btrfsFile ∉ fs) (n : Nat) :
    isSkipRes ((dmRun C n (dInit fs)).result) = false := by
  suffices hs : ∀ k, isSkipRes ((dmRun C k (dInit fs)).result) = false ∧
      ((dmRun C k (dInit fs)).pc = .mkRoot ∨ (dmRun C k (dInit fs)).pc = .checkMarker →
        (dmRun C k (dInit fs)).result = none → C.btrfsFile ∉ (dmRun C k (dInit fs)).fs) by
    exact (hs n).1
  intro k
  induction k with
  | zero => exact ⟨rfl, fun _ _ => h⟩
  | succ j ih =>
    unfold dmRun at *
    rw [Function.iterate_succ_apply']
    exact dmStep_noskip C _ ih.1 ih.2

/-! ## Fetch-and-Place for assets
(`download-assets.py`, `download_asset`, lines 48-71, and
`download_sprites`, lines 74-118) -/

/-- External-world parameters of one `download_asset` run. -/
structure AEnv where
  /-- Exit status of `aria2c` (line 33, `check=True`). -/
  downloadOk : Bool
  /-- Exit status of `tar -xzf` (line 45, `check=True`). -/
  extractOk : Bool
deriving DecidableEq

/-- Observable events of a `download_asset` run; `aria2Asset` is the
only remote access. -/
inductive AEvent where
  | aria2Asset : AEvent
  | tarExtract : AEvent
deriving DecidableEq

/-- Outcome of `download_asset` (Python returns `True`/`False`; the
constructor records the return site and the asset directory). -/
inductive AResult where
  /-- Early return `True` at lines 56-58 (`ofm` already populated). -/
  | skippedA (p : Path) : AResult
  /-- Return `True` at line 67. -/
  | okA (p : Path) : AResult
  /-- The `except` branch, lines 69-71: return `False`. -/
  | failedA : AResult
deriving DecidableEq

/-- `assets_dir / asset_name` (line 51). -/
def assetDirOf (assetsDir : Path) (assetName : String) : Path :=
  assetsDir ++ [assetName]

/-- `asset_dir / 'ofm'` (line 55): the marker directory whose
non-emptiness is the idempotence gate. -/
def ofmDirOf (assetsDir : Path) (assetName : String) : Path :=
  assetsDir ++ [assetName, "ofm"]

/-- `download_asset` (lines 48-71): make the asset directory, return
early when `ofm` exists and is non-empty, otherwise download the
archive into the asset directory, extract it there, and unlink the
archive.  Extraction is modelled as populating `ofm` with one entry. -/
def download_asset (assetsDir : Path) (assetName : String) (env : AEnv) (fs : FS) :
    AResult × FS × List AEvent :=
  let asset_dir := assetDirOf assetsDir assetName
  let fs1 := insertPath fs asset_dir
  let ofm_dir := ofmDirOf assetsDir assetName
  if ofm_dir ∈ fs1 ∧ hasChild fs1 ofm_dir then (.skippedA asset_dir, fs1, [])
  else
    let archive := asset_dir ++ ["ofm.tar.gz"]
    if env.downloadOk then
      let fs2 := insertPath fs1 archive
      if env.extractOk then
        let fs3 := insertPath (insertPath fs2 ofm_dir) (ofm_dir ++ ["content"])
        (.okA asset_dir, removePath fs3 archive, [.aria2Asset, .tarExtract])
      else (.failedA, fs2, [.aria2Asset, .tarExtract])
    else (.failedA, fs1, [.aria2Asset])

/-- `sprites_dir / 'temp.tar.gz'` (line 104 of `download-assets.py`,
with `sprites_dir = assets_dir / 'sprites'`, line 77).  The binding is
evaluated inside the per-sprite loop but does not depend on the loop
variable: every sprite version downloads into the same archive path. -/
def spriteTempArchive (assetsDir : Path) (spriteName : String) : Path :=
  assetsDir ++ ["sprites", "temp.tar.gz"]

/-! ## Mount, copy, unmount
(`extract-btrfs.py`, `extract_tiles` lines 56-126, `mount_btrfs`
lines 14-42, `unmount_btrfs` lines 45-53)

Embedded as a small-step machine so that both interrupted runs and the
cleanup behaviour on every exit path are expressible.  The `rsync` copy
of the `tiles` subtree is modelled as creating the destination
directory and then copying `numTiles` abstract entries one per step. -/

/-- External-world parameters of one `extract_tiles` run. -/
structure EEnv where
  /-- Exit status of `losetup -f` (line 22). -/
  losetupFindOk : Bool
  /-- Exit status of `losetup <dev> <file>` (line 31); when it succeeds
  the loopback device is attached. -/
  attachOk : Bool
  /-- Exit status of `mount -t btrfs` (line 37). -/
  mountOk : Bool
  /-- Does the mounted image contain a `tiles` directory (line 87)? -/
  imageHasTiles : Bool
  /-- Number of entries `rsync` has to copy (lines 101-107). -/
  numTiles : Nat
  /-- Exit status of `rsync`; when false it raises after copying
  `rsyncFailAfter` entries. -/
  rsyncOk : Bool
  rsyncFailAfter : Nat
  /-- Does the image contain `metadata.json` (line 110)? -/
  imageHasMeta : Bool
  /-- Does `shutil.copy2` succeed (line 111)? -/
  copyMetaOk : Bool
  /-- Exit status of `umount` (line 50). -/
  umountOk : Bool
deriving DecidableEq

/-- Arguments of one `extract_tiles` run. -/
structure ECtx where
  /-- The source image path (argument `btrfs_file`). -/
  btrfsFile : Path
  /-- Argument `output_dir` (default `/data/tiles`). -/
  outDir : Path
  area : String
  version : String
  env : EEnv
deriving DecidableEq

/-- `output_dir / area / version` (line 66): the final path. -/
def ECtx.tilesOutput (C : ECtx) : Path := C.outDir ++ [C.area, C.version]

/-- `tiles_output / 'tiles'` (line 69): the second half of the
already-extracted check and the `rsync` destination (line 106). -/
def ECtx.tilesOutTiles (C : ECtx) : Path := C.outDir ++ [C.area, C.version, "tiles"]

/-- `tiles_output / 'metadata.json'` (line 111). -/
def ECtx.outMeta (C : ECtx) : Path := C.outDir ++ [C.area, C.version, "metadata.json"]

/-- The `tempfile.TemporaryDirectory()` mount point (line 76),
abstracted to a fixed path. -/
def ECtx.mountPoint (C : ECtx) : Path := ["tmpmount"]

/-- The `i`-th entry copied by `rsync` into the `tiles` subtree. -/
def ECtx.tileFile (C : ECtx) (i : Nat) : Path :=
  C.outDir ++ [C.area, C.version, "tiles", Nat.repr i]

/-- Cleanup events of `unmount_btrfs` (lines 45-53). -/
inductive EEvent where
  /-- The `umount` command ran (line 50). -/
  | umountCmd : EEvent
  /-- The `losetup -d` command ran (line 51); it runs only when
  `umount` succeeded, both being inside one `try`. -/
  | detachCmd : EEvent
deriving DecidableEq

/-- Outcome of `extract_tiles` (Python returns `True`/`False`; the
constructor records the return site). -/
inductive EResult where
  /-- Return `False` at lines 61-63 (image file missing). -/
  | fileMissing : EResult
  /-- Early return `True` at lines 69-71 (already extracted). -/
  | alreadyExtracted (p : Path) : EResult
  /-- Return `True` at lines 114-115. -/
  | extracted (p : Path) : EResult
  /-- Return `False` from the `except` branch (lines 117-119) or from
  line 89 (`tiles` missing in the image). -/
  | extractFailed : EResult
deriving DecidableEq

/-- Program counters of the `extract_tiles` machine, in source order.
`cleanup r` is the `finally` block (lines 121-124) about to return
`r`. -/
inductive EPc where
  | checkFile : EPc
  | checkDone : EPc
  | mountImage : EPc
  | checkTiles : EPc
  | mkOut : EPc
  | rsyncStart : EPc
  | rsyncLoop : EPc
  | copyMeta : EPc
  | retTrue : EPc
  | cleanup (r : EResult) : EPc
deriving DecidableEq

/-- Machine state for `extract_tiles`.  `loopSet` is the Python local
`loop_device` being non-`None` (set only when `mount_btrfs` returned);
`attached` is ghost state for whether the kernel currently holds the
loopback device. -/
structure EState where
  pc : EPc
  fs : FS
  copied : Nat
  loopSet : Bool
  attached : Bool
  events : List EEvent
  result : Option EResult
deriving DecidableEq

/-- Initial state of an `extract_tiles` run on filesystem `fs`. -/
def eInit (fs : FS) : EState :=
  { pc := .checkFile, fs := fs, copied := 0, loopSet := false,
    attached := false, events := [], result := none }

/-- One step of `extract_tiles`. -/
def eStep (C : ECtx) (s : EState) : EState :=
  match s.result with
  | some _ => s
  | none =>
    match s.pc with
    | .checkFile =>
      if C.btrfsFile ∈ s.fs then { s with pc := .checkDone }
      else { s with result := some .fileMissing }
    | .checkDone =>
      if C.tilesOutput ∈ s.fs ∧ C.tilesOutTiles ∈ s.fs then
        { s with result := some (.alreadyExtracted C.tilesOutput) }
      else { s with pc := .mountImage }
    | .mountImage =>
      let fs1 := insertPath s.fs C.mountPoint
      if C.env.losetupFindOk then
        if C.env.attachOk then
          if C.env.mountOk then
            { s with fs := fs1, loopSet := true, attached := true, pc := .checkTiles }
          else { s with fs := fs1, attached := true, result := some .extractFailed }
        else { s with fs := fs1, result := some .extractFailed }
      else { s with fs := fs1, result := some .extractFailed }
    | .checkTiles =>
      if C.env.imageHasTiles then { s with pc := .mkOut }
      else { s with pc := .cleanup .extractFailed }
    | .mkOut => { s with fs := insertPath s.fs C.tilesOutput, pc := .rsyncStart }
    | .rsyncStart => { s with fs := insertPath s.fs C.tilesOutTiles, pc := .rsyncLoop }
    | .rsyncLoop =>
      if C.env.rsyncOk = false ∧ C.env.rsyncFailAfter ≤ s.copied then
        { s with pc := .cleanup .extractFailed }
      else if s.copied < C.env.numTiles then
        { s with fs := insertPath s.fs (C.tileFile s.copied),
                 copied := s.copied + 1, pc := .rsyncLoop }
      else { s with pc := .copyMeta }
    | .copyMeta =>
      if C.env.imageHasMeta then
        if C.env.copyMetaOk then
          { s with fs := insertPath s.fs C.outMeta, pc := .retTrue }
        else { s with pc := .cleanup .extractFailed }
      else { s with pc := .retTrue }
    | .retTrue => { s with pc := .cleanup (.extracted C.tilesOutput) }
    | .cleanup r =>
      if s.loopSet then
        if C.env.umountOk then
          { s with events := s.events ++ [.umountCmd, .detachCmd],
                   attached := false, fs := removePath s.fs C.mountPoint,
                   result := some r }
        else
          { s with events := s.events ++ [.umountCmd],
                   fs := removePath s.fs C.mountPoint, result := some r }
      else { s with fs := removePath s.fs C.mountPoint, result := some r }

/-- The first `n` steps of an `extract_tiles` run. -/
def eRun (C : ECtx) (n : Nat) (s : EState) : EState :=
  (eStep C)^[n] s

/-- Enough fuel for `extract_tiles` to run to completion. -/
def eFuel (C : ECtx) : Nat := C.env.numTiles + 12

theorem eStep_halted {C : ECtx} {s : EState} (h : s.result.isSome) :
    eStep C s = s := by
  unfold eStep
  cases hr : s.result with
  | some r => rfl
  | none => rw [hr] at h; cases h

theorem eRun_halted {C : ECtx} {s : EState} (h : s.result.isSome) (n : Nat) :
    eRun C n s = s := by
  induction n with
  | zero => rfl
  | succ k ih =>
    unfold eRun at *
    rw [Function.iterate_succ_apply, eStep_halted h, ih]

theorem eRun_succ (C : ECtx) (n : Nat) (s : EState) :
    eRun C (n + 1) s = eRun C n (eStep C s) :=
  Function.iterate_succ_apply (eStep C) n s

/-- Termination measure of the `extract_tiles` machine. -/
def eRank (C : ECtx) (s : EState) : Nat :=
  match s.result with
  | some _ => 0
  | none =>
    match s.pc with
    | .cleanup _ => 1
    | .retTrue => 2
    | .copyMeta => 3
    | .rsyncLoop => 4 + (C.env.numTiles - s.copied)
    | .rsyncStart => 5 + C.env.numTiles
    | .mkOut => 6 + C.env.numTiles
    | .checkTiles => 7 + C.env.numTiles
    | .mountImage => 8 + C.env.numTiles
    | .checkDone => 9 + C.env.numTiles
    | .checkFile => 10 + C.env.numTiles

theorem eRank_step (C : ECtx) (s : EState) (h : s.result = none) :
    eRank C (eStep C s) < eRank C s := by
  obtain ⟨pc, fs, copied, ls, att, ev, res⟩ := s
  cases res with
  | some r => cases h
  | none =>
    cases pc
    case checkFile =>
      by_cases hc : C.btrfsFile ∈ fs <;>
        simp [eStep, eRank, hc] <;> omega
    case checkDone =>
      by_cases hc : C.tilesOutput ∈ fs ∧ C.tilesOutTiles ∈ fs <;>
        simp [eStep, eRank, hc] <;> omega
    case mountImage =>
      by_cases h1 : C.env.losetupFindOk = true <;>
        by_cases h2 : C.env.attachOk = true <;>
        by_cases h3 : C.env.mountOk = true <;>
        simp [eStep, eRank, h1, h2, h3] <;> omega
    case checkTiles =>
      by_cases hc : C.env.imageHasTiles = true <;>
        simp [eStep, eRank, hc] <;> omega
    case mkOut => simp [eStep, eRank] <;> omega
    case rsyncStart => simp [eStep, eRank] <;> omega
    case rsyncLoop =>
      by_cases h1 : C.env.rsyncOk = false ∧ C.env.rsyncFailAfter ≤ copied
      · simp [eStep, eRank, h1]; omega
      · by_cases h2 : copied < C.env.numTiles <;>
          simp [eStep, eRank, h1, h2] <;> omega
    case copyMeta =>
      by_cases h1 : C.env.imageHasMeta = true <;>
        by_cases h2 : C.env.copyMetaOk = true <;>
        simp [eStep, eRank, h1, h2] <;> omega
    case retTrue => simp [eStep, eRank] <;> omega
    case cleanup =>
      by_cases h1 : ls = true <;>
        by_cases h2 : C.env.umountOk = true <;>
        simp [eStep, eRank, h1, h2]

theorem eRun_term (C : ECtx) : ∀ (k : Nat) (s : EState),
    eRank C s ≤ k → ((eRun C k s).result).isSome = true := by
  intro k
  induction k with
  | zero =>
    intro s hle
    cases hres : s.result with
    | some r => simp [eRun, Function.iterate_zero, hres]
    | none =>
      exfalso
      have h1 : 1 ≤ eRank C s := by
        obtain ⟨pc, fs, copied, ls, att, ev, res⟩ := s
        cases res with
        | some r => cases hres
        | none => cases pc <;> simp [eRank] <;> omega
      omega
  | succ j ih =>
    intro s hle
    cases hres : s.result with
    | some r =>
      rw [eRun_halted (by rw [hres]; rfl)]
      rw [hres]; rfl
    | none =>
      rw [eRun_succ]
      exact ih _ (by have := eRank_step C s hres; omega)

/-- Program counters reachable after a successful `mount_btrfs`. -/
def postMount : EPc → Bool
  | .checkFile => false
  | .checkDone => false
  | .mountImage => false
  | _ => true

/-- The cleanup invariant: once the loopback device is recorded in the
Python local (`loop_device` non-`None`), every way the run can halt
passes through the `finally` block and runs `unmount_btrfs`. -/
def cleanupInv (C : ECtx) (s : EState) : Prop :=
  s.loopSet = true ∧
    ((s.result = none ∧ postMount s.pc = true) ∨
     (s.result.isSome = true ∧ EEvent.umountCmd ∈ s.events ∧
       (C.env.umountOk = true → EEvent.detachCmd ∈ s.events ∧ s.attached = false)))

theorem cleanupInv_step (C : ECtx) (s : EState) (h : cleanupInv C s) :
    cleanupInv C (eStep C s) := by
  obtain ⟨hls, hcase⟩ := h
  obtain ⟨pc, fs, copied, ls, att, ev, res⟩ := s
  cases res with
  | some r => exact ⟨hls, hcase⟩
  | none =>
    rcases hcase with ⟨_, hpost⟩ | ⟨habs, _⟩
    · cases pc
      case checkFile => cases hpost
      case checkDone => cases hpost
      case mountImage => cases hpost
      case checkTiles =>
        by_cases hc : C.env.imageHasTiles = true <;>
          simp_all [eStep, cleanupInv, postMount]
      case mkOut => simp_all [eStep, cleanupInv, postMount]
      case rsyncStart => simp_all [eStep, cleanupInv, postMount]
      case rsyncLoop =>
        by_cases h1 : C.env.rsyncOk = false ∧ C.env.rsyncFailAfter ≤ copied
        · simp only [eStep, if_pos h1]
          simp_all [cleanupInv, postMount]
        · by_cases h2 : copied < C.env.numTiles
          · simp only [eStep, if_neg h1, if_pos h2]
            simp_all [cleanupInv, postMount]
          · simp only [eStep, if_neg h1, if_neg h2]
            simp_all [cleanupInv, postMount]
      case copyMeta =>
        by_cases h1 : C.env.imageHasMeta = true <;>
          by_cases h2 : C.env.copyMetaOk = true <;>
          simp_all [eStep, cleanupInv, postMount]
      case retTrue => simp_all [eStep, cleanupInv, postMount]
      case cleanup r =>
        simp only [cleanupInv] at hls ⊢
        subst hls
        by_cases h2 : C.env.umountOk = true <;>
          simp_all [eStep, cleanupInv, postMount]
    · cases habs

theorem cleanupInv_run (C : ECtx) (s : EState) (h : cleanupInv C s) (n : Nat) :
    cleanupInv C (eRun C n s) := by
  induction n with
  | zero => exact h
  | succ k ih =>
    unfold eRun at *
    rw [Function.iterate_succ_apply']
    exact cleanupInv_step C _ ih

/-! ## Layout Publisher (`generate-nginx-config.py`)

The manifest (TileJSON) is a JSON object, modelled as an ordered
association list to mirror Python's insertion-ordered `dict`.  The
fixed nginx boilerplate of the two f-string templates is not re-stated;
each emitted fragment is the record of the values interpolated into the
template (area, version and the concrete paths), which is the entire
content that varies. -/

/-- A JSON value (numbers restricted to integers; the manifests at
stake hold strings, arrays and objects). -/
inductive Json where
  | str : String → Json
  | num : Int → Json
  | jbool : Bool → Json
  | null : Json
  | arr : List Json → Json
  | obj : List (String × Json) → Json

mutual

/-- Compact serialization in the style of
`json.dump(..., separators=(',', ':'))` (line 50); string escaping is
elided (the inputs at stake contain no characters needing escapes). -/
def serializeJson : Json → String
  | .str s => "\"" ++ s ++ "\""
  | .num n => toString n
  | .jbool b => if b then "true" else "false"
  | .null => "null"
  | .arr l => "[" ++ serializeArr l ++ "]"
  | .obj kvs => "\x7b" ++ serializeObj kvs ++ "\x7d"

/-- Comma-joined serialization of an array body. -/
def serializeArr : List Json → String
  | [] => ""
  | [x] => serializeJson x
  | x :: y :: t => serializeJson x ++ "," ++ serializeArr (y :: t)

/-- Comma-joined serialization of an object body. -/
def serializeObj : List (String × Json) → String
  | [] => ""
  | [kv] => "\"" ++ kv.1 ++ "\":" ++ serializeJson kv.2
  | kv :: kv2 :: t =>
    "\"" ++ kv.1 ++ "\":" ++ serializeJson kv.2 ++ "," ++ serializeObj (kv2 :: t)

end

/-- Replacement of the entry for key `k` by `(k, v)`, other entries
unchanged. -/
def setEntry (k : String) (v : Json) (kv : String × Json) : String × Json :=
  if kv.1 == k then (k, v) else kv

/-- Python `dict` assignment `d[k] = v` on an insertion-ordered
association list: replace the entry in place when the key is present,
append otherwise. -/
def dictSet (d : List (String × Json)) (k : String) (v : Json) : List (String × Json) :=
  if d.any (fun kv => kv.1 == k) then d.map (setEntry k v)
  else d ++ [(k, v)]

/-- Python `d.get(k)` (first entry wins, as for a `dict` whose keys are
unique). -/
def dictGet (d : List (String × Json)) (k : String) : Option Json :=
  (d.find? (fun kv => kv.1 == k)).map (fun kv => kv.2)

/-- Line 46-47 of `generate-nginx-config.py`: the rewritten tile URL.
`protocol = 'https' if domain != 'localhost' else 'http'`, then
`f'\x7bprotocol\x7d://\x7bdomain\x7d/\x7barea\x7d/\x7bversion\x7d/...'`
with the literal `z`/`x`/`y` placeholders. -/
def tilesUrlValue (domain area version : String) : String :=
  (if domain ≠ "localhost" then "https" else "http") ++
    ("://" ++ (domain ++ ("/" ++ (area ++ ("/" ++ (version ++ "/\x7bz\x7d/\x7bx\x7d/\x7by\x7d.pbf"))))))

/-- Lines 45-47: `tilejson['tiles'] = [url]` on the parsed manifest. -/
def updateTilejson (tj : List (String × Json)) (domain area version : String) :
    List (String × Json) :=
  dictSet tj "tiles" (.arr [.str (tilesUrlValue domain area version)])

/-- One version directory under an area of `tiles_dir` (all entries of
the tree model are directories; non-directories are skipped by the
source before any of the modelled logic runs). -/
structure VersionDir where
  name : String
  /-- `(version_dir / 'tiles').exists()` (lines 32, 36, 105, 108). -/
  hasTiles : Bool
  /-- `(version_dir / 'metadata.json').exists()` (lines 33, 36). -/
  hasMetadata : Bool
  /-- Content of `tilejson.json` when that file exists
  (lines 34, 40, 106, 108). -/
  tilejson : Option (List (String × Json))

/-- One area directory under `tiles_dir`. -/
structure AreaDir where
  name : String
  versions : List VersionDir

/-- The directory tree under `tiles_dir`. -/
abbrev TilesTree := List AreaDir

/-- The name order on area directories. -/
def adLeR (a b : AreaDir) : Prop := strLe a.name b.name = true

instance : DecidableRel adLeR :=
  fun a b => inferInstanceAs (Decidable (strLe a.name b.name = true))

/-- The name order on version directories. -/
def vdLeR (a b : VersionDir) : Prop := strLe a.name b.name = true

instance : DecidableRel vdLeR :=
  fun a b => inferInstanceAs (Decidable (strLe a.name b.name = true))

/-- `sorted(tiles_dir.iterdir())` (line 21): areas in name order. -/
def sortAreas (t : TilesTree) : TilesTree :=
  t.insertionSort adLeR

/-- `sorted(area_dir.iterdir())` (line 27): versions in name order. -/
def sortVersions (l : List VersionDir) : List VersionDir :=
  l.insertionSort vdLeR

/-- The interpolated values of the per-version f-string template
(lines 55-81): the location blocks for `/{area}/{version}` (serving
`tilejson.json`) and `/{area}/{version}/` (serving the `tiles`
subtree). -/
structure VersionFragment where
  area : String
  version : String
  tilejsonPath : Path
  tilesPath : Path
deriving DecidableEq

/-- The interpolated values of the latest-alias f-string template
(lines 112-150): the bare-path block `/{area}` and the two wildcard
blocks, all rooted in the latest version's directory. -/
structure LatestFragment where
  area : String
  latestVersion : String
  latestPath : Path
  tilesPath : Path
  tilejsonPath : Path
deriving DecidableEq

/-- `tiles_dir / area / version / 'tilejson.json'`. -/
def tilejsonPathOf (tilesDir : Path) (area version : String) : Path :=
  tilesDir ++ [area, version, "tilejson.json"]

/-- `tiles_dir / area / version / 'tiles'`. -/
def tilesPathOf (tilesDir : Path) (area version : String) : Path :=
  tilesDir ++ [area, version, "tiles"]

/-- The manifest rewrite performed inside the per-version loop
(lines 40-52): only versions passing the completeness guard of line 36
are reached, and only when `tilejson.json` exists is it rewritten. -/
def rewriteVersionDir (domain areaName : String) (vd : VersionDir) : VersionDir :=
  if vd.hasTiles && vd.hasMetadata then
    match vd.tilejson with
    | some tj => { vd with tilejson := some (updateTilejson tj domain areaName vd.name) }
    | none => vd
  else vd

/-- `generate_tile_locations` (lines 10-84): walk areas and versions in
sorted order; skip pairs missing the `tiles` subtree or
`metadata.json` (line 36); rewrite each reached `tilejson.json`
(lines 40-52) and emit one `(area, version, fragment)` triple per
surviving pair (lines 54-82).  Returns the tree with the rewrites
applied together with the emitted triples. -/
def generate_tile_locations (tilesDir : Path) (tree : TilesTree) (domain : String) :
    TilesTree × List (String × String × VersionFragment) :=
  let sorted := sortAreas tree
  let newTree := sorted.map (fun ad =>
    { ad with versions := (sortVersions ad.versions).map (rewriteVersionDir domain ad.name) })
  let frags := sorted.flatMap (fun ad =>
    (sortVersions ad.versions).filterMap (fun vd =>
      if vd.hasTiles && vd.hasMetadata then
        some (ad.name, vd.name,
          { area := ad.name, version := vd.name,
            tilejsonPath := tilejsonPathOf tilesDir ad.name vd.name,
            tilesPath := tilesPathOf tilesDir ad.name vd.name })
      else none))
  (newTree, frags)

/-- The body of the per-area loop of `generate_latest_redirects`
(lines 92-151): collect all version-directory names, take the last of
the sorted list (lines 99-103), and emit the alias fragment only when
that latest version has both its `tiles` subtree and its
`tilejson.json` (line 108); otherwise emit nothing for the area. -/
def latestAliasFor (tilesDir : Path) (ad : AreaDir) : Option (String × LatestFragment) :=
  let versions := sortStrings (ad.versions.map (fun v => v.name))
  match versions.getLast? with
  | none => none
  | some latest =>
    match ad.versions.find? (fun v => v.name == latest) with
    | none => none
    | some vd =>
      if vd.hasTiles && vd.tilejson.isSome then
        some (ad.name,
          { area := ad.name, latestVersion := latest,
            latestPath := tilesDir ++ [ad.name, latest],
            tilesPath := tilesPathOf tilesDir ad.name latest,
            tilejsonPath := tilejsonPathOf tilesDir ad.name latest })
      else none

/-- `generate_latest_redirects` (lines 87-153). -/
def generate_latest_redirects (tilesDir : Path) (tree : TilesTree) :
    List (String × LatestFragment) :=
  (sortAreas tree).filterMap (latestAliasFor tilesDir)

/-! ## Supporting lemmas about the manifest rewrite -/

theorem setEntry_idem (k : String) (v : Json) (kv : String × Json) :
    setEntry k v (setEntry k v kv) = setEntry k v kv := by
  unfold setEntry
  by_cases h : kv.1 == k
  · rw [if_pos h]
    simp
  · rw [if_neg h, if_neg h]

theorem any_map_setEntry {d : List (String × Json)} {k : String} (v : Json)
    (h : d.any (fun kv => kv.1 == k) = true) :
    (d.map (setEntry k v)).any (fun kv => kv.1 == k) = true := by
  rw [List.any_eq_true] at h ⊢
  obtain ⟨kv, hkv, hp⟩ := h
  refine ⟨setEntry k v kv, List.mem_map_of_mem _ hkv, ?_⟩
  unfold setEntry
  rw [if_pos hp]
  simp

theorem map_setEntry_of_not_any {d : List (String × Json)} {k : String} (v : Json)
    (h : d.any (fun kv => kv.1 == k) = false) :
    d.map (setEntry k v) = d := by
  induction d with
  | nil => rfl
  | cons kv t ih =>
    simp only [List.any_cons, Bool.or_eq_false_iff] at h
    simp only [List.map_cons]
    rw [ih h.2]
    unfold setEntry
    rw [if_neg (by simp [h.1])]

theorem dictSet_idem (d : List (String × Json)) (k : String) (v : Json) :
    dictSet (dictSet d k v) k v = dictSet d k v := by
  unfold dictSet
  by_cases h : d.any (fun kv => kv.1 == k) = true
  · rw [if_pos h, if_pos (any_map_setEntry v h), List.map_map]
    have hff : (setEntry k v ∘ setEntry k v) = setEntry k v :=
      funext (setEntry_idem k v)
    rw [hff]
  · rw [if_neg h, if_pos ?side]
    case side =>
      rw [List.any_append]
      simp [setEntry]
    rw [List.map_append]
    have h2 : d.any (fun kv => kv.1 == k) = false := by
      revert h; cases d.any (fun kv => kv.1 == k) <;> simp
    rw [map_setEntry_of_not_any v h2]
    have : setEntry k v (k, v) = (k, v) := by unfold setEntry; simp
    simp [this]

theorem find?_map_setEntry_ne {d : List (String × Json)} {k k2 : String} (v : Json)
    (h : k2 ≠ k) :
    (d.map (setEntry k v)).find? (fun kv => kv.1 == k2)
      = d.find? (fun kv => kv.1 == k2) := by
  induction d with
  | nil => rfl
  | cons kv t ih =>
    simp only [List.map_cons]
    by_cases hkv : kv.1 == k
    · have he : setEntry k v kv = (k, v) := by unfold setEntry; rw [if_pos hkv]
      rw [he]
      have h1 : (((k, v) : String × Json).1 == k2) = false := by
        simp [BEq.symm_false, bne_iff_ne]
        exact fun hh => h hh.symm
      have h2 : (kv.1 == k2) = false := by
        have : kv.1 = k := by simpa using hkv
        rw [this]
        exact h1
      rw [List.find?_cons_of_neg _ (by simp [h1]), List.find?_cons_of_neg _ (by simp [h2])]
      exact ih
    · have he : setEntry k v kv = kv := by unfold setEntry; rw [if_neg hkv]
      rw [he]
      by_cases hk2 : kv.1 == k2
      · rw [List.find?_cons_of_pos _ (by simp_all), List.find?_cons_of_pos _ (by simp_all)]
      · rw [List.find?_cons_of_neg _ (by simp_all), List.find?_cons_of_neg _ (by simp_all)]
        exact ih

theorem dictGet_dictSet_ne (d : List (String × Json)) (k k2 : String) (v : Json)
    (h : k2 ≠ k) :
    dictGet (dictSet d k v) k2 = dictGet d k2 := by
  unfold dictGet dictSet
  by_cases hany : d.any (fun kv => kv.1 == k) = true
  · rw [if_pos hany, find?_map_setEntry_ne v h]
  · rw [if_neg hany, List.find?_append]
    have : List.find? (fun kv => kv.1 == k2) [(k, v)] = none := by
      rw [List.find?_cons_of_neg _ (by simp; exact fun hh => h hh.symm)]
      rfl
    rw [this, Option.or_none]

theorem dictGet_dictSet_self (d : List (String × Json)) (k : String) (v : Json) :
    dictGet (dictSet d k v) k = some v := by
  unfold dictGet dictSet
  by_cases hany : d.any (fun kv => kv.1 == k) = true
  · rw [if_pos hany]
    induction d with
    | nil => cases hany
    | cons kv t ih =>
      simp only [List.map_cons]
      by_cases hkv : kv.1 == k
      · have he : setEntry k v kv = (k, v) := by unfold setEntry; rw [if_pos hkv]
        rw [he, List.find?_cons_of_pos _ (by simp)]
        rfl
      · have he : setEntry k v kv = kv := by unfold setEntry; rw [if_neg hkv]
        rw [he, List.find?_cons_of_neg _ (by simpa using hkv)]
        have hany2 : t.any (fun kv => kv.1 == k) = true := by
          simp only [List.any_cons, Bool.or_eq_true] at hany
          rcases hany with h1 | h1
          · exact absurd h1 (by simpa using hkv)
          · exact h1
        exact ih hany2
  · rw [if_neg hany, List.find?_append]
    have hf : d.any (fun kv => kv.1 == k) = false := by
      revert hany; cases d.any (fun kv => kv.1 == k) <;> simp
    have h1 : d.find? (fun kv => kv.1 == k) = none := by
      rw [List.find?_eq_none]
      intro x hx
      simpa using (List.any_eq_false.mp hf) x hx
    rw [h1, Option.none_or, List.find?_cons_of_pos _ (by simp)]
    rfl

theorem httpsLit : ("https" ++ "://" : String) = "https://" := rfl

theorem httpLit : ("http" ++ "://" : String) = "http://" := rfl

theorem tilesUrl_https (d a v : String) (h : d ≠ "localhost") :
    tilesUrlValue d a v
      = "https://" ++ (d ++ ("/" ++ (a ++ ("/" ++ (v ++ "/\x7bz\x7d/\x7bx\x7d/\x7by\x7d.pbf"))))) := by
  unfold tilesUrlValue
  rw [if_pos h, ← String.append_assoc, httpsLit]

theorem tilesUrl_http (a v : String) :
    tilesUrlValue "localhost" a v
      = "http://" ++ ("localhost" ++ ("/" ++ (a ++ ("/" ++ (v ++ "/\x7bz\x7d/\x7bx\x7d/\x7by\x7d.pbf"))))) := by
  unfold tilesUrlValue
  rw [if_neg (by simp), ← String.append_assoc, httpLit]

theorem charToNat_inj {a b : Char} (h : a.toNat = b.toNat) : a = b :=
  Char.ext (UInt32.ext h)

theorem charListLe_antisymm : ∀ a b : List Char,
    charListLe a b = true → charListLe b a = true → a = b
  | [], [], _, _ => rfl
  | [], _ :: _, _, h2 => by simp [charListLe] at h2
  | _ :: _, [], h1, _ => by simp [charListLe] at h1
  | a :: as, b :: bs, h1, h2 => by
    unfold charListLe at h1 h2
    rcases Nat.lt_trichotomy a.toNat b.toNat with hab | hab | hab
    · rw [if_neg (by omega), if_pos hab] at h2; cases h2
    · rw [if_neg (by omega), if_neg (by omega)] at h1 h2
      rw [charToNat_inj hab, charListLe_antisymm as bs h1 h2]
    · rw [if_neg (by omega), if_pos hab] at h1; cases h1

theorem strLe_antisymm {a b : String} (h1 : strLe a b = true)
    (h2 : strLe b a = true) : a = b := by
  cases a with
  | mk da =>
    cases b with
    | mk db =>
      have := charListLe_antisymm da db h1 h2
      rw [this]

/-- Under distinct names, `find?` by name returns the member carrying
that name. -/
theorem find?_name_of_mem {l : List VersionDir} {v : VersionDir}
    (hv : v ∈ l) (hnodup : (l.map (fun x => x.name)).Nodup) :
    l.find? (fun x => x.name == v.name) = some v := by
  induction l with
  | nil => cases hv
  | cons u t ih =>
    rcases List.mem_cons.mp hv with rfl | hvt
    · rw [List.find?_cons_of_pos _ (by simp)]
    · by_cases hu : u.name == v.name
      · exfalso
        have hnames : v.name ∈ t.map (fun x => x.name) :=
          List.mem_map_of_mem _ hvt
        have hne : u.name ∉ t.map (fun x => x.name) :=
          (List.nodup_cons.mp (by simpa using hnodup)).1
        rw [show u.name = v.name by simpa using hu] at hne
        exact hne hnames
      · rw [List.find?_cons_of_neg _ (by simpa using hu)]
        exact ih hvt (List.nodup_cons.mp (by simpa using hnodup)).2

theorem dmRun_succ2 (C : DCtx) (n : Nat) (s : DState) :
    dmRun C (n + 1) s = dmStep C (dmRun C n s) :=
  Function.iterate_succ_apply' (dmStep C) n s

theorem dmStep_events_mono (C : DCtx) (s : DState) (e : DEvent)
    (h : e ∈ s.events) : e ∈ (dmStep C s).events := by
  obtain ⟨pc, fs, ev, res, rr⟩ := s
  cases res with
  | some r => exact h
  | none =>
    cases pc
    case mkRoot => exact h
    case checkMarker =>
      by_cases hc : C.btrfsFile ∈ fs
      · simp only [dmStep, if_pos hc]; exact h
      · simp only [dmStep, if_neg hc]; exact h
    case mkTmp => exact h
    case spacePc =>
      cases hsc : spaceCheck C.env.free C.env.remoteSize <;>
        simp only [dmStep, hsc] <;> exact List.mem_append_left _ h
    case downloadPc =>
      by_cases hc : C.env.downloadOk = true
      · simp only [dmStep, if_pos hc]; exact List.mem_append_left _ h
      · simp only [dmStep, if_neg hc]; exact List.mem_append_left _ h
    case decompressPc =>
      by_cases hc : C.env.unpigzOk = true
      · simp only [dmStep, if_pos hc]; exact List.mem_append_left _ h
      · simp only [dmStep, if_neg hc]; exact List.mem_append_left _ h
    case mkFinal => exact h
    case renamePc => exact h
    case cleanupPc => exact h

theorem dmRun_events_mono (C : DCtx) (s : DState) (e : DEvent) (n : Nat)
    (h : e ∈ s.events) : e ∈ (dmRun C n s).events := by
  induction n with
  | zero => exact h
  | succ k ih =>
    rw [dmRun_succ2]
    exact dmStep_events_mono C _ e ih

/-! ## Claims -/

/-- C7: rewriting a manifest's tile URL template twice with the same
hostname yields the same document both times, and hence byte-identical
serialized output; the second rewrite is a no-op on the first's result. -/
theorem c7_manifest_rewrite_idempotent (tj : List (String × Json))
    (domain area version : String) :
    updateTilejson (updateTilejson tj domain area version) domain area version
      = updateTilejson tj domain area version ∧
    serializeJson (.obj (updateTilejson (updateTilejson tj domain area version)
        domain area version))
      = serializeJson (.obj (updateTilejson tj domain area version)) := by
  have h := dictSet_idem tj "tiles" (.arr [.str (tilesUrlValue domain area version)])
  exact ⟨h, congrArg (fun d => serializeJson (.obj d)) h⟩

/-- C8: the publish-time manifest rewrite changes only the `tiles`
field — every other key keeps its value — the rewritten `tiles` field
is exactly the one-element list holding the new template, and the
template's scheme is `https` exactly when the hostname differs from the
default `localhost`, `http` otherwise. -/
theorem c8_manifest_rewrite_frame (tj : List (String × Json))
    (domain area version k : String) (hk : k ≠ "tiles") :
    dictGet (updateTilejson tj domain area version) k = dictGet tj k ∧
    dictGet (updateTilejson tj domain area version) "tiles"
      = some (.arr [.str (tilesUrlValue domain area version)]) ∧
    (domain ≠ "localhost" →
      ∃ rest, tilesUrlValue domain area version = "https://" ++ rest) ∧
    (domain = "localhost" →
      ∃ rest, tilesUrlValue domain area version = "http://" ++ rest) := by
  refine ⟨dictGet_dictSet_ne tj "tiles" k _ hk, dictGet_dictSet_self tj "tiles" _,
    ?_, ?_⟩
  · intro hd
    exact ⟨_, tilesUrl_https domain area version hd⟩
  · intro hd
    subst hd
    exact ⟨_, tilesUrl_http area version⟩

/-- A concrete manifest used to witness the frame property. -/
def tjWitness : List (String × Json) :=
  [("name", .str "OpenFreeMap"), ("tiles", .arr [.str "old"])]

/-- C8 witness: the frame property evaluated on a concrete manifest and
hostname. -/
theorem c8_manifest_rewrite_frame_witness :
    dictGet (updateTilejson tjWitness "tiles.example.org" "planet" "v1") "name"
      = dictGet tjWitness "name" ∧
    dictGet (updateTilejson tjWitness "tiles.example.org" "planet" "v1") "tiles"
      = some (.arr [.str (tilesUrlValue "tiles.example.org" "planet" "v1")]) :=
  ⟨(c8_manifest_rewrite_frame tjWitness "tiles.example.org" "planet" "v1" "name"
      (by decide)).1,
   (c8_manifest_rewrite_frame tjWitness "tiles.example.org" "planet" "v1" "name"
      (by decide)).2.1⟩

/-- An arbitrary download environment, used where only paths matter. -/
def dEnvAny : DEnv :=
  { free := 0, remoteSize := 0, downloadOk := true, unpigzOk := true }

/-- C9 counterexample: two distinct `(name, version)` pairs acquired
under the same destination root share the staging directory
`output_dir/_tmp` and the staged archive path inside it, and two
distinct sprite versions share the archive path
`sprites/temp.tar.gz` — staging is not unique to the pair. -/
theorem c9_counterexample :
    (("planet", "v1") ≠ (("monaco", "v2") : String × String)) ∧
    DCtx.tmpDir { area := "planet", version := "v1", root := ["data", "btrfs"], env := dEnvAny }
      = DCtx.tmpDir { area := "monaco", version := "v2", root := ["data", "btrfs"], env := dEnvAny } ∧
    DCtx.gzFile { area := "planet", version := "v1", root := ["data", "btrfs"], env := dEnvAny }
      = DCtx.gzFile { area := "monaco", version := "v2", root := ["data", "btrfs"], env := dEnvAny } ∧
    ("sprite_a" ≠ "sprite_b") ∧
    spriteTempArchive ["data", "assets"] "sprite_a"
      = spriteTempArchive ["data", "assets"] "sprite_b" :=
  ⟨by decide, rfl, rfl, by decide, rfl⟩

/-- C9 (amended): the staging locations computed by the acquisition
code depend only on the destination root, never on the
`(name, version)` pair: every pair under one root uses the same shared
staging directory and archive path (staging is NOT disjoint per pair),
while acquisitions under different destination roots do use distinct
staging directories. -/
theorem c9_staging_shared (root r2 assetsDir : Path) (a1 v1 a2 v2 : String)
    (e1 e2 : DEnv) (hr : root ≠ r2) :
    DCtx.tmpDir { area := a1, version := v1, root := root, env := e1 }
      = DCtx.tmpDir { area := a2, version := v2, root := root, env := e2 } ∧
    DCtx.gzFile { area := a1, version := v1, root := root, env := e1 }
      = DCtx.gzFile { area := a2, version := v2, root := root, env := e2 } ∧
    spriteTempArchive assetsDir a1 = spriteTempArchive assetsDir a2 ∧
    DCtx.tmpDir { area := a1, version := v1, root := root, env := e1 }
      ≠ DCtx.tmpDir { area := a2, version := v2, root := r2, env := e2 } := by
  refine ⟨rfl, rfl, rfl, ?_⟩
  intro h
  have h2 : root ++ ["_tmp"] = r2 ++ ["_tmp"] := h
  have hlen := congrArg List.length h2
  simp only [List.length_append, List.length_cons, List.length_nil] at hlen
  exact hr (List.append_inj h2 (by omega)).1

/-- C9 witness: the shared-staging property evaluated at concrete pairs
and roots. -/
theorem c9_staging_shared_witness :
    DCtx.tmpDir { area := "planet", version := "v1", root := ["data", "btrfs"], env := dEnvAny }
      = DCtx.tmpDir { area := "monaco", version := "v2", root := ["data", "btrfs"], env := dEnvAny } ∧
    DCtx.tmpDir { area := "planet", version := "v1", root := ["data", "btrfs"], env := dEnvAny }
      ≠ DCtx.tmpDir { area := "monaco", version := "v2", root := ["mnt", "btrfs"], env := dEnvAny } :=
  ⟨(c9_staging_shared ["data", "btrfs"] ["mnt", "btrfs"] ["data", "assets"]
      "planet" "v1" "monaco" "v2" dEnvAny dEnvAny (by decide)).1,
   (c9_staging_shared ["data", "btrfs"] ["mnt", "btrfs"] ["data", "assets"]
      "planet" "v1" "monaco" "v2" dEnvAny dEnvAny (by decide)).2.2.2⟩

/-- C3 counterexample: `get_latest_version` filters by substring
containment and extracts the third `/`-separated component rather than
matching the full `areas/<area>/<version>/<suffix>` pattern: on a
listing whose only line embeds the pattern behind an extra prefix, the
code returns the area component `"planet"`, while the spec-side
resolver finds no matching line (and the version component of the
embedded pattern is `"v1"`, not `"planet"`). -/
theorem c3_counterexample :
    get_latest_version "planet" ["other/areas/planet/v1/tiles.btrfs.gz"]
      = some "planet" ∧
    resolve_latest_spec "planet" ["other/areas/planet/v1/tiles.btrfs.gz"] = none ∧
    (some "planet" : Option String) ≠ some "v1" :=
  ⟨by decide, by decide, by decide⟩

/-- C3 (amended): `get_latest_version` collects version candidates by
substring containment (both `areas/<area>/` and `tiles.btrfs.gz`
occurring anywhere in the line) and takes component index 2 of lines
with at least 4 components; it returns the lexicographic maximum of the
collected set, and `None` when the set is empty; on the well-formed
example listing it returns `"20240102_000000"`. -/
theorem c3_latest_version (area : String) (lines : List String) :
    (extractVersions area lines = [] → get_latest_version area lines = none) ∧
    (extractVersions area lines ≠ [] →
       ∃ m, get_latest_version area lines = some m ∧
         m ∈ extractVersions area lines ∧
         ∀ x ∈ extractVersions area lines, strLe x m = true) ∧
    get_latest_version "planet"
        ["areas/planet/20240101_000000/tiles.btrfs.gz",
         "areas/planet/20240102_000000/tiles.btrfs.gz",
         "areas/planet/20240101_120000/tiles.btrfs.gz"]
      = some "20240102_000000" := by
  refine ⟨?_, ?_, by decide⟩
  · intro he
    show (if (extractVersions area lines).isEmpty then none
          else (sortStrings (extractVersions area lines)).getLast?) = none
    rw [he]
    rfl
  · intro hne
    obtain ⟨m, hlast, hmem, hub⟩ := sortStrings_max _ hne
    refine ⟨m, ?_, hmem, hub⟩
    show (if (extractVersions area lines).isEmpty then none
          else (sortStrings (extractVersions area lines)).getLast?) = some m
    rw [if_neg (by simpa using hne), hlast]

/-- C3 witness: the amended resolver behaviour evaluated on the
example listing and on an empty-match listing. -/
theorem c3_latest_version_witness :
    get_latest_version "planet"
        ["areas/planet/20240101_000000/tiles.btrfs.gz",
         "areas/planet/20240102_000000/tiles.btrfs.gz",
         "areas/planet/20240101_120000/tiles.btrfs.gz"]
      = some "20240102_000000" ∧
    get_latest_version "planet" ["sprites/ofm.tar.gz"] = none :=
  ⟨(c3_latest_version "planet"
      ["areas/planet/20240101_000000/tiles.btrfs.gz",
       "areas/planet/20240102_000000/tiles.btrfs.gz",
       "areas/planet/20240101_120000/tiles.btrfs.gz"]).2.2,
   (c3_latest_version "planet" ["sprites/ofm.tar.gz"]).1 (by decide)⟩

/-- C4: the disk-space preflight of `download_area` requires exactly
`expected * 3` bytes of headroom; when the remote size is known and the
free bytes fall short, the run halts reporting both counts and the
download step never runs; when the known size fits, the check passes;
when the remote size is unknown (`0`), only a warning is emitted and
the run proceeds to the download step. -/
theorem c4_preflight (C : DCtx) (fs : FS) (hm : C.btrfsFile ∉ fs) :
    (∀ f n, spaceCheck C.env.free C.env.remoteSize = SpaceCheck.insufficient f n →
        f = C.env.free ∧ n = C.env.remoteSize * 3) ∧
    (C.env.remoteSize ≠ 0 → C.env.free < C.env.remoteSize * 3 →
        (dmRun C DFUEL (dInit fs)).result
          = some (.insufficientSpace C.env.free (C.env.remoteSize * 3)) ∧
        DEvent.aria2Download ∉ (dmRun C DFUEL (dInit fs)).events) ∧
    (C.env.remoteSize ≠ 0 → C.env.remoteSize * 3 ≤ C.env.free →
        spaceCheck C.env.free C.env.remoteSize = SpaceCheck.ok) ∧
    (C.env.remoteSize = 0 →
        DEvent.warnUnknownSize ∈ (dmRun C DFUEL (dInit fs)).events ∧
        DEvent.aria2Download ∈ (dmRun C DFUEL (dInit fs)).events) := by
  have hm1 : C.btrfsFile ∉ insertPath fs C.root :=
    not_mem_insertPath (btrfsFile_ne_root C) hm
  have e1 : dmRun C 1 (dInit fs)
      = { pc := .checkMarker, fs := insertPath fs C.root, events := [],
          result := none, renameRan := false } := by
    rw [dmRun_succ2]
    rfl
  have e2 : dmRun C 2 (dInit fs)
      = { pc := .mkTmp, fs := insertPath fs C.root, events := [],
          result := none, renameRan := false } := by
    rw [dmRun_succ2, e1]
    simp only [dmStep, if_neg hm1]
  have e3 : dmRun C 3 (dInit fs)
      = { pc := .spacePc, fs := insertPath (insertPath fs C.root) C.tmpDir,
          events := [], result := none, renameRan := false } := by
    rw [dmRun_succ2, e2]
    rfl
  refine ⟨?_, ?_, ?_, ?_⟩
  · intro f n h
    unfold spaceCheck at h
    split_ifs at h with h1 h2
    all_goals cases h
    exact ⟨rfl, rfl⟩
  · intro hsz hlt
    have hsc : spaceCheck C.env.free C.env.remoteSize
        = SpaceCheck.insufficient C.env.free (C.env.remoteSize * 3) := by
      unfold spaceCheck
      rw [if_neg hsz, if_pos hlt]
    have e4 : dmRun C 4 (dInit fs)
        = { pc := .spacePc, fs := insertPath (insertPath fs C.root) C.tmpDir,
            events := [.headRequest],
            result := some (.insufficientSpace C.env.free (C.env.remoteSize * 3)),
            renameRan := false } := by
      rw [dmRun_succ2, e3]
      simp only [dmStep, hsc, List.nil_append]
    have hfull : dmRun C DFUEL (dInit fs) = dmRun C 8 (dmRun C 4 (dInit fs)) := by
      show dmRun C (8 + 4) (dInit fs) = _
      unfold dmRun
      rw [Function.iterate_add_apply]
    rw [hfull, e4, dmRun_halted (by rfl)]
    exact ⟨rfl, by simp⟩
  · intro hsz hle
    unfold spaceCheck
    rw [if_neg hsz, if_neg (by omega)]
  · intro hz
    have hsc : spaceCheck C.env.free C.env.remoteSize = SpaceCheck.unknownWarn := by
      unfold spaceCheck
      rw [if_pos hz]
    have e4 : dmRun C 4 (dInit fs)
        = { pc := .downloadPc, fs := insertPath (insertPath fs C.root) C.tmpDir,
            events := [.headRequest, .warnUnknownSize],
            result := none, renameRan := false } := by
      rw [dmRun_succ2, e3]
      simp only [dmStep, hsc, List.nil_append]
    have hfull : dmRun C DFUEL (dInit fs) = dmRun C 7 (dmRun C 5 (dInit fs)) := by
      show dmRun C (7 + 5) (dInit fs) = _
      unfold dmRun
      rw [Function.iterate_add_apply]
    have h5 : DEvent.warnUnknownSize ∈ (dmRun C 5 (dInit fs)).events ∧
        DEvent.aria2Download ∈ (dmRun C 5 (dInit fs)).events := by
      rw [dmRun_succ2, e4]
      by_cases hdl : C.env.downloadOk = true
      · simp [dmStep, hdl]
      · simp [dmStep, hdl]
    rw [hfull]
    exact ⟨dmRun_events_mono C _ _ 7 h5.1, dmRun_events_mono C _ _ 7 h5.2⟩

/-- C4 witness: with 10 GB free and an expected size of 5 GB the run
halts with `InsufficientSpace` needing 15 GB and never reaches the
download; with 20 GB free the preflight passes. -/
theorem c4_preflight_witness :
    (dmRun { area := "planet", version := "v1", root := ["data", "btrfs"],
             env := { free := 10 * 1073741824, remoteSize := 5 * 1073741824,
                      downloadOk := true, unpigzOk := true } }
        DFUEL (dInit [])).result
      = some (.insufficientSpace (10 * 1073741824) (5 * 1073741824 * 3)) ∧
    DEvent.aria2Download ∉
      (dmRun { area := "planet", version := "v1", root := ["data", "btrfs"],
               env := { free := 10 * 1073741824, remoteSize := 5 * 1073741824,
                        downloadOk := true, unpigzOk := true } }
        DFUEL (dInit [])).events ∧
    spaceCheck (20 * 1073741824) (5 * 1073741824) = SpaceCheck.ok :=
  ⟨((c4_preflight _ [] (by decide)).2.1 (by decide) (by decide)).1,
   ((c4_preflight _ [] (by decide)).2.1 (by decide) (by decide)).2,
   (c4_preflight
      { area := "planet", version := "v1", root := ["data", "btrfs"],
        env := { free := 20 * 1073741824, remoteSize := 5 * 1073741824,
                 downloadOk := true, unpigzOk := true } }
      [] (by decide)).2.2.1 (by decide) (by decide)⟩

/-- C2: when the completeness marker is already present, a second
`acquire` is a pure skip: `download_area` halts with the skip result
carrying the same `final_path`, leaves the filesystem unchanged and
performs no event at all (in particular no network access — the marker
check runs before the size probe and the download); likewise
`download_asset` returns its skip result with the filesystem unchanged
and an empty event trace when the `ofm` directory exists and is
non-empty. -/
theorem c2_idempotent (C : DCtx) (fs : FS)
    (hmarker : C.btrfsFile ∈ fs) (hroot : C.root ∈ fs)
    (assetsDir : Path) (assetName : String) (aenv : AEnv) (afs : FS)
    (hofm : ofmDirOf assetsDir assetName ∈ afs)
    (hchild : hasChild afs (ofmDirOf assetsDir assetName) = true)
    (hadir : assetDirOf assetsDir assetName ∈ afs) :
    ((dmRun C DFUEL (dInit fs)).result = some (.skipped C.btrfsFile) ∧
     (dmRun C DFUEL (dInit fs)).fs = fs ∧
     (dmRun C DFUEL (dInit fs)).events = []) ∧
    download_asset assetsDir assetName aenv afs
      = (.skippedA (assetDirOf assetsDir assetName), afs, []) := by
  constructor
  · have e1 : dmRun C 1 (dInit fs)
        = { pc := .checkMarker, fs := fs, events := [],
            result := none, renameRan := false } := by
      rw [dmRun_succ2]
      show dmStep C (dInit fs) = _
      simp only [dmStep, dInit, insertPath_of_mem hroot]
    have e2 : dmRun C 2 (dInit fs)
        = { pc := .checkMarker, fs := fs, events := [],
            result := some (.skipped C.btrfsFile), renameRan := false } := by
      rw [dmRun_succ2, e1]
      simp only [dmStep, if_pos hmarker]
    have hfull : dmRun C DFUEL (dInit fs) = dmRun C 10 (dmRun C 2 (dInit fs)) := by
      show dmRun C (10 + 2) (dInit fs) = _
      unfold dmRun
      rw [Function.iterate_add_apply]
    rw [hfull, e2, dmRun_halted (by rfl)]
    exact ⟨rfl, rfl, rfl⟩
  · simp only [download_asset]
    rw [insertPath_of_mem hadir, if_pos ⟨hofm, hchild⟩]

/-- C2 witness: the skip behaviour of both acquisition functions
evaluated on concrete filesystems already containing the markers. -/
theorem c2_idempotent_witness :
    ((dmRun { area := "planet", version := "v1", root := ["data", "btrfs"], env := dEnvAny }
        DFUEL (dInit [["data", "btrfs"], ["data", "btrfs", "planet", "v1", "tiles.btrfs"]])).result
      = some (.skipped ["data", "btrfs", "planet", "v1", "tiles.btrfs"]) ∧
     (dmRun { area := "planet", version := "v1", root := ["data", "btrfs"], env := dEnvAny }
        DFUEL (dInit [["data", "btrfs"], ["data", "btrfs", "planet", "v1", "tiles.btrfs"]])).fs
      = [["data", "btrfs"], ["data", "btrfs", "planet", "v1", "tiles.btrfs"]] ∧
     (dmRun { area := "planet", version := "v1", root := ["data", "btrfs"], env := dEnvAny }
        DFUEL (dInit [["data", "btrfs"], ["data", "btrfs", "planet", "v1", "tiles.btrfs"]])).events
      = []) ∧
    download_asset ["data", "assets"] "fonts" { downloadOk := true, extractOk := true }
        [["data", "assets", "fonts"], ["data", "assets", "fonts", "ofm"],
         ["data", "assets", "fonts", "ofm", "Roboto"]]
      = (.skippedA ["data", "assets", "fonts"],
         [["data", "assets", "fonts"], ["data", "assets", "fonts", "ofm"],
          ["data", "assets", "fonts", "ofm", "Roboto"]], []) :=
  c2_idempotent
    { area := "planet", version := "v1", root := ["data", "btrfs"], env := dEnvAny }
    [["data", "btrfs"], ["data", "btrfs", "planet", "v1", "tiles.btrfs"]]
    (by decide) (by decide)
    ["data", "assets"] "fonts" { downloadOk := true, extractOk := true }
    [["data", "assets", "fonts"], ["data", "assets", "fonts", "ofm"],
     ["data", "assets", "fonts", "ofm", "Roboto"]]
    (by decide) (by decide) (by decide)

theorem eRun_succ2 (C : ECtx) (n : Nat) (s : EState) :
    eRun C (n + 1) s = eStep C (eRun C n s) :=
  Function.iterate_succ_apply' (eStep C) n s

/-- A fully-successful extract environment copying two tile entries. -/
def eEnvOk : EEnv :=
  { losetupFindOk := true, attachOk := true, mountOk := true,
    imageHasTiles := true, numTiles := 2, rsyncOk := true, rsyncFailAfter := 0,
    imageHasMeta := true, copyMetaOk := true, umountOk := true }

/-- A concrete `extract_tiles` run for `planet/v1`. -/
def eCtxOk : ECtx :=
  { btrfsFile := ["data", "btrfs", "planet", "v1", "tiles.btrfs"],
    outDir := ["data", "tiles"], area := "planet", version := "v1",
    env := eEnvOk }

/-- A filesystem holding only the source image. -/
def eFs0 : FS := [["data", "btrfs", "planet", "v1", "tiles.btrfs"]]

/-- C1 counterexample: interrupting `extract_tiles` after 7 steps —
mid-`rsync`, with one of the two tile entries copied — leaves a partial
`tiles` directory directly under the final path, and a subsequent call
sees `tiles_output` and `tiles_output/tiles` existing, reports the pair
as already extracted and never copies the missing entry: the
half-finished result is observed as complete. -/
theorem c1_counterexample :
    ECtx.tilesOutTiles eCtxOk ∈ (eRun eCtxOk 7 (eInit eFs0)).fs ∧
    ECtx.tileFile eCtxOk 1 ∉ (eRun eCtxOk 7 (eInit eFs0)).fs ∧
    (eRun eCtxOk 20 (eInit ((eRun eCtxOk 7 (eInit eFs0)).fs))).result
      = some (.alreadyExtracted (ECtx.tilesOutput eCtxOk)) ∧
    ECtx.tileFile eCtxOk 1
      ∉ (eRun eCtxOk 20 (eInit ((eRun eCtxOk 7 (eInit eFs0)).fs))).fs := by
  decide

/-- A concrete download context used to witness C1. -/
def dCtxW : DCtx :=
  { area := "planet", version := "v1", root := ["data", "btrfs"],
    env := { free := 100, remoteSize := 1, downloadOk := true, unpigzOk := true } }

/-- C1 (amended): `download_area` stages the payload in the `_tmp`
directory and renames it to the marker path as the last content step —
at every interruption point before the rename the marker `tiles.btrfs`
does not exist under the final path and a rerun from the interrupted
filesystem never takes the skip branch (it proceeds as a fresh
attempt); `extract_tiles`, however, places content non-atomically:
copied directly into the final path, a mid-copy interruption is
reported as already extracted by the subsequent call. -/
theorem c1_atomicity (C : DCtx) (fs : FS) (n m : Nat)
    (h : C.btrfsFile ∉ fs)
    (hnr : (dmRun C n (dInit fs)).renameRan = false) :
    C.btrfsFile ∉ (dmRun C n (dInit fs)).fs ∧
    isSkipRes ((dmRun C m (dInit ((dmRun C n (dInit fs)).fs))).result) = false ∧
    ECtx.tilesOutTiles eCtxOk ∈ (eRun eCtxOk 7 (eInit eFs0)).fs ∧
    (eRun eCtxOk 20 (eInit ((eRun eCtxOk 7 (eInit eFs0)).fs))).result
      = some (.alreadyExtracted (ECtx.tilesOutput eCtxOk)) := by
  have h1 := dmRun_marker C fs h n hnr
  exact ⟨h1, dmRun_noskip C _ h1 m, by decide, by decide⟩

/-- C1 witness: the amended atomicity property evaluated on a concrete
run of `download_area` interrupted after five steps (past the download,
before the rename). -/
theorem c1_atomicity_witness :
    DCtx.btrfsFile dCtxW ∉ (dmRun dCtxW 5 (dInit [])).fs ∧
    isSkipRes ((dmRun dCtxW DFUEL (dInit ((dmRun dCtxW 5 (dInit [])).fs))).result)
      = false :=
  ⟨(c1_atomicity dCtxW [] 5 DFUEL (by decide) (by decide)).1,
   (c1_atomicity dCtxW [] 5 DFUEL (by decide) (by decide)).2.1⟩

/-- An environment where the loopback attach succeeds but the mount
command itself fails. -/
def eEnvMountFail : EEnv :=
  { losetupFindOk := true, attachOk := true, mountOk := false,
    imageHasTiles := true, numTiles := 1, rsyncOk := true, rsyncFailAfter := 0,
    imageHasMeta := false, copyMetaOk := true, umountOk := true }

/-- The mount-failure extract context. -/
def eCtxMountFail : ECtx :=
  { btrfsFile := ["data", "btrfs", "planet", "v1", "tiles.btrfs"],
    outDir := ["data", "tiles"], area := "planet", version := "v1",
    env := eEnvMountFail }

/-- C5 counterexample: when `losetup` attaches the device but `mount`
fails, `mount_btrfs` raises before returning, the caller's
`loop_device` local is still `None`, and the `finally` block skips
`unmount_btrfs` entirely: the run ends with the device still attached
and no `umount` ever issued — the acquired loopback device leaks. -/
theorem c5_counterexample :
    (eRun eCtxMountFail (eFuel eCtxMountFail) (eInit eFs0)).result
      = some .extractFailed ∧
    (eRun eCtxMountFail (eFuel eCtxMountFail) (eInit eFs0)).attached = true ∧
    EEvent.umountCmd ∉ (eRun eCtxMountFail (eFuel eCtxMountFail) (eInit eFs0)).events := by
  decide

/-- C5 (amended): on every exit path reached after `mount_btrfs`
returns successfully — missing `tiles` in the image, `rsync` failure at
any point, metadata-copy failure, or success — the run halts and the
`finally` block issues the `umount` command; when `umount` succeeds the
`losetup -d` detach also runs and the device is released.  (When the
mount step itself fails after the attach, the cleanup is skipped — see
the counterexample.) -/
theorem c5_cleanup (C : ECtx) (fs : FS)
    (hfind : C.env.losetupFindOk = true) (hatt : C.env.attachOk = true)
    (hmnt : C.env.mountOk = true) (hfile : C.btrfsFile ∈ fs)
    (hnotdone : ¬(C.tilesOutput ∈ fs ∧ C.tilesOutTiles ∈ fs)) :
    ((eRun C (eFuel C) (eInit fs)).result).isSome = true ∧
    EEvent.umountCmd ∈ (eRun C (eFuel C) (eInit fs)).events ∧
    (C.env.umountOk = true →
      EEvent.detachCmd ∈ (eRun C (eFuel C) (eInit fs)).events ∧
      (eRun C (eFuel C) (eInit fs)).attached = false) := by
  have e1 : eRun C 1 (eInit fs)
      = { pc := .checkDone, fs := fs, copied := 0, loopSet := false,
          attached := false, events := [], result := none } := by
    rw [eRun_succ2]
    show eStep C (eInit fs) = _
    simp only [eStep, eInit, if_pos hfile]
  have e2 : eRun C 2 (eInit fs)
      = { pc := .mountImage, fs := fs, copied := 0, loopSet := false,
          attached := false, events := [], result := none } := by
    rw [eRun_succ2, e1]
    simp only [eStep, if_neg hnotdone]
  have e3 : eRun C 3 (eInit fs)
      = { pc := .checkTiles, fs := insertPath fs C.mountPoint, copied := 0,
          loopSet := true, attached := true, events := [], result := none } := by
    rw [eRun_succ2, e2]
    simp only [eStep, if_pos hfind, if_pos hatt, if_pos hmnt]
  have hrank : eRank C (eRun C 3 (eInit fs)) ≤ 9 + C.env.numTiles := by
    rw [e3]
    simp only [eRank]
    omega
  have hJ3 : cleanupInv C (eRun C 3 (eInit fs)) := by
    rw [e3]
    exact ⟨rfl, Or.inl ⟨rfl, rfl⟩⟩
  have hsplit : eFuel C = (9 + C.env.numTiles) + 3 := by
    unfold eFuel
    omega
  have hfull : eRun C (eFuel C) (eInit fs)
      = eRun C (9 + C.env.numTiles) (eRun C 3 (eInit fs)) := by
    rw [hsplit]
    unfold eRun
    rw [Function.iterate_add_apply]
  have hres : ((eRun C (eFuel C) (eInit fs)).result).isSome = true := by
    rw [hfull]
    exact eRun_term C _ _ hrank
  have hJ : cleanupInv C (eRun C (eFuel C) (eInit fs)) := by
    rw [hfull]
    exact cleanupInv_run C _ hJ3 _
  rcases hJ.2 with ⟨hnone, _⟩ | ⟨_, hum, hdet⟩
  · rw [hnone] at hres
    cases hres
  · exact ⟨hres, hum, hdet⟩

/-- An environment where `rsync` fails after copying one of three tile
entries. -/
def eEnvCopyFail : EEnv :=
  { losetupFindOk := true, attachOk := true, mountOk := true,
    imageHasTiles := true, numTiles := 3, rsyncOk := false, rsyncFailAfter := 1,
    imageHasMeta := true, copyMetaOk := true, umountOk := true }

/-- The mid-copy-failure extract context. -/
def eCtxCopyFail : ECtx :=
  { btrfsFile := ["data", "btrfs", "planet", "v1", "tiles.btrfs"],
    outDir := ["data", "tiles"], area := "planet", version := "v1",
    env := eEnvCopyFail }

/-- C5 witness: the guaranteed-cleanup property evaluated on a run
whose `rsync` copy fails mid-way: the device is unmounted, detached and
released. -/
theorem c5_cleanup_witness :
    ((eRun eCtxCopyFail (eFuel eCtxCopyFail) (eInit eFs0)).result).isSome = true ∧
    EEvent.umountCmd ∈ (eRun eCtxCopyFail (eFuel eCtxCopyFail) (eInit eFs0)).events ∧
    EEvent.detachCmd ∈ (eRun eCtxCopyFail (eFuel eCtxCopyFail) (eInit eFs0)).events ∧
    (eRun eCtxCopyFail (eFuel eCtxCopyFail) (eInit eFs0)).attached = false :=
  ⟨(c5_cleanup eCtxCopyFail eFs0 rfl rfl rfl (by decide) (by decide)).1,
   (c5_cleanup eCtxCopyFail eFs0 rfl rfl rfl (by decide) (by decide)).2.1,
   ((c5_cleanup eCtxCopyFail eFs0 rfl rfl rfl (by decide) (by decide)).2.2 rfl).1,
   ((c5_cleanup eCtxCopyFail eFs0 rfl rfl rfl (by decide) (by decide)).2.2 rfl).2⟩

/-- The manifest content carried by every complete version of the C6
tree. -/
def tjC6 : List (String × Json) :=
  [("tilejson", .str "2.2.0"), ("tiles", .arr [.str "old"])]

/-- A fully-populated version directory. -/
def vdFull (n : String) : VersionDir :=
  { name := n, hasTiles := true, hasMetadata := true, tilejson := some tjC6 }

/-- The C6 tree: area alpha with versions v1 and v2, area beta with v1,
all complete. -/
def treeC6 : TilesTree :=
  [{ name := "alpha", versions := [vdFull "v1", vdFull "v2"] },
   { name := "beta", versions := [vdFull "v1"] }]

/-- The tiles root used by the C6 evaluation. -/
def tilesDirC6 : Path := ["data", "tiles"]

/-- C6: on the fixed tree `{alpha: [v1, v2], beta: [v1]}` publish emits
exactly 2 per-version fragments for alpha and 1 for beta (3 in total),
and the alias document serves alpha's bare and wildcard paths from v2,
the lexicographically greatest of alpha's versions (and beta's from its
only version); rerunning both generators on the tree state left by the
first run — with its manifests rewritten — reproduces the identical
output, so regeneration is total and determined by the tree state. -/
theorem c6_publish_determinism :
    ((generate_tile_locations tilesDirC6 treeC6 "tiles.example.org").2.filter
        (fun f => f.1 == "alpha")).length = 2 ∧
    ((generate_tile_locations tilesDirC6 treeC6 "tiles.example.org").2.filter
        (fun f => f.1 == "beta")).length = 1 ∧
    (generate_tile_locations tilesDirC6 treeC6 "tiles.example.org").2.length = 3 ∧
    generate_latest_redirects tilesDirC6 treeC6
      = [("alpha",
          { area := "alpha", latestVersion := "v2",
            latestPath := ["data", "tiles", "alpha", "v2"],
            tilesPath := ["data", "tiles", "alpha", "v2", "tiles"],
            tilejsonPath := ["data", "tiles", "alpha", "v2", "tilejson.json"] }),
         ("beta",
          { area := "beta", latestVersion := "v1",
            latestPath := ["data", "tiles", "beta", "v1"],
            tilesPath := ["data", "tiles", "beta", "v1", "tiles"],
            tilejsonPath := ["data", "tiles", "beta", "v1", "tilejson.json"] })] ∧
    generate_tile_locations tilesDirC6
        (generate_tile_locations tilesDirC6 treeC6 "tiles.example.org").1
        "tiles.example.org"
      = generate_tile_locations tilesDirC6 treeC6 "tiles.example.org" ∧
    generate_latest_redirects tilesDirC6
        (generate_tile_locations tilesDirC6 treeC6 "tiles.example.org").1
      = generate_latest_redirects tilesDirC6 treeC6 :=
  ⟨by decide, by decide, by decide, by decide, by rfl, by rfl⟩

/-- C10: the alias target of an area is the greatest-sorting name among
ALL of its version directories, completeness ignored during selection;
when that greatest version has both its `tiles` subtree and its
`tilejson.json` the alias fragment is emitted for it, and when it lacks
either nothing is emitted for the area at all — no fallback to an older
complete version. -/
theorem c10_latest_alias_masking (tilesDir : Path) (ad : AreaDir) (v : VersionDir)
    (hv : v ∈ ad.versions)
    (hmax : ∀ u ∈ ad.versions, strLe u.name v.name = true)
    (hnodup : (ad.versions.map (fun x => x.name)).Nodup) :
    (v.hasTiles = true → v.tilejson.isSome = true →
      latestAliasFor tilesDir ad
        = some (ad.name,
            { area := ad.name, latestVersion := v.name,
              latestPath := tilesDir ++ [ad.name, v.name],
              tilesPath := tilesPathOf tilesDir ad.name v.name,
              tilejsonPath := tilejsonPathOf tilesDir ad.name v.name })) ∧
    (¬(v.hasTiles = true ∧ v.tilejson.isSome = true) →
      latestAliasFor tilesDir ad = none) := by
  have hne : ad.versions.map (fun x => x.name) ≠ [] := by
    cases hvs : ad.versions with
    | nil => rw [hvs] at hv; cases hv
    | cons a t => simp [hvs]
  obtain ⟨m, hlast, hmem, hub⟩ := sortStrings_max _ hne
  obtain ⟨u, hu, huname⟩ := List.mem_map.mp hmem
  have hm_le : strLe m v.name = true := by
    rw [← huname]
    exact hmax u hu
  have hv_le : strLe v.name m = true := hub _ (List.mem_map_of_mem _ hv)
  have hmv : m = v.name := strLe_antisymm hm_le hv_le
  subst hmv
  have hfind : ad.versions.find? (fun x => x.name == v.name) = some v :=
    find?_name_of_mem hv hnodup
  constructor
  · intro ht hj
    simp only [latestAliasFor, hlast, hfind, ht, hj]
    rfl
  · intro hcond
    have hfb : (v.hasTiles && v.tilejson.isSome) = false := by
      cases hht : v.hasTiles <;> cases hjj : v.tilejson.isSome <;>
        simp_all
    simp only [latestAliasFor, hlast, hfind, hfb]
    rfl

/-- An area whose greatest-sorting version v2 is incomplete while its
older version v1 is complete. -/
def adMasked : AreaDir :=
  { name := "alpha",
    versions :=
      [{ name := "v1", hasTiles := true, hasMetadata := true, tilejson := some tjC6 },
       { name := "v2", hasTiles := false, hasMetadata := false, tilejson := none }] }

/-- C10 witness: with the greatest version incomplete, no alias is
emitted for the area despite the complete older version. -/
theorem c10_latest_alias_masking_witness :
    latestAliasFor ["data", "tiles"] adMasked = none :=
  (c10_latest_alias_masking ["data", "tiles"] adMasked
      { name := "v2", hasTiles := false, hasMetadata := false, tilejson := none }
      (List.mem_cons_of_mem _ (List.mem_cons_self _ _))
      (by decide) (by decide)).2 (by decide)

end OfmSpec
